import Mathlib

/-!
Verification of the rust-hl7 HL7 v2 parsing library against its
natural-language specification.  The Rust sources are shallowly embedded:
strings are Lean `String`s (byte indexing of ASCII text coincides with
character indexing), `Vec<&str>` becomes `List String`, fallible functions
return `Except`/`Option`, and a Rust panic (failed `assert!`, `unwrap()` of
`None`/`Err`, out-of-bounds slice or index) is modelled as a distinguished
failure value (`none` / `.panicked`).  Machine `usize` arithmetic is `Nat`
with explicit wrapping modulo `2 ^ 64` where the source can underflow.
-/

namespace RustHl7

/-- Word size of the target: `usize` values live below `2 ^ 64`. -/
def usizeSize : Nat := 2 ^ 64

/-- Embedding of Rust `str::split(delim: char)` on a list of characters:
splitting yields one (possibly empty) piece more than the number of
delimiter occurrences; the empty input yields one empty piece. -/
def splitChar (delim : Char) : List Char → List (List Char)
  | [] => [[]]
  | c :: cs =>
    match splitChar delim cs with
    | [] => [[]]
    | piece :: rest =>
      if c = delim then [] :: piece :: rest else (c :: piece) :: rest

/-- `str::split` lifted to `String`. -/
def splitOnChar (delim : Char) (s : String) : List String :=
  (splitChar delim s.data).map (fun l => ⟨l⟩)

theorem splitChar_ne_nil (delim : Char) (l : List Char) :
    splitChar delim l ≠ [] := by
  cases l with
  | nil => simp [splitChar]
  | cons c cs =>
    simp only [splitChar]
    cases h : splitChar delim cs with
    | nil => simp
    | cons piece rest =>
      by_cases hc : c = delim <;> simp [hc]

theorem splitOnChar_ne_nil (delim : Char) (s : String) :
    splitOnChar delim s ≠ [] := by
  simp [splitOnChar, splitChar_ne_nil]

/-- Modelled from the spec (§3): the `Separators` struct lives in
`separators.rs`, which is not among the provided sources; per the spec it
is the six delimiter characters.  Field names follow the uses in
`fields.rs` / `forwards_parser.rs` (`delims.segment`, `delims.field`,
`delims.repeat`, `delims.component`, `delims.subcomponent`). -/
structure Separators where
  segment : Char
  field : Char
  «repeat» : Char
  component : Char
  subcomponent : Char
  escape : Char
deriving DecidableEq, Repr

/-- Modelled from the spec (§3): the standard default delimiter set
`\r`, `|`, `~`, `^`, `&`, `\`. -/
def Separators.default : Separators :=
  { segment := '\r'
    field := '|'
    «repeat» := '~'
    component := '^'
    subcomponent := '&'
    escape := '\\' }

/-- Modelled from the spec (§7): the error enum is declared in `lib.rs`,
which is not among the provided sources; per the spec (and the uses in
`fields.rs` and the segment tests) it has exactly the two kinds
`MissingRequiredValue` and `Generic(String)`. -/
inductive Hl7ParseError where
  | MissingRequiredValue : Hl7ParseError
  | Generic (msg : String) : Hl7ParseError
deriving DecidableEq, Repr

/-- `Field` from `fields.rs`: the source span plus the materialized
repeat/component/subcomponent tree (borrowed `&str` spans become owned
`String`s in the embedding; only content is observable). -/
structure Field where
  source : String
  delims : Separators
  repeats : List String
  components : List (List String)
  subcomponents : List (List (List String))
deriving DecidableEq, Repr

/-- The field record materialized by `Field::parse`: split the input
into repeats on the repeat delimiter, each repeat into components, each
component into subcomponents. -/
def mkField (input : String) (delims : Separators) : Field :=
  let repeats := splitOnChar delims.«repeat» input
  let components := repeats.map (fun r => splitOnChar delims.component r)
  let subcomponents :=
    components.map (fun r => r.map (fun c => splitOnChar delims.subcomponent c))
  { source := input
    delims := delims
    repeats := repeats
    components := components
    subcomponents := subcomponents }

/-- `Field::parse` from `fields.rs`: materialize the tree and return
`Ok` — there is no error path. -/
def Field.parse (input : String) (delims : Separators) :
    Except Hl7ParseError Field :=
  Except.ok (mkField input delims)

/-- `Field::parse_mandatory` from `fields.rs`. -/
def Field.parse_mandatory (input : Option String) (delims : Separators) :
    Except Hl7ParseError Field :=
  match input with
  | some string_value => Field.parse string_value delims
  | none => Except.error Hl7ParseError.MissingRequiredValue

/-- `Field::parse_optional` from `fields.rs`. -/
def Field.parse_optional (input : Option String) (delims : Separators) :
    Except Hl7ParseError (Option Field) :=
  match input with
  | none => Except.ok none
  | some x =>
    if x.isEmpty then Except.ok none
    else
      match Field.parse x delims with
      | Except.ok f => Except.ok (some f)
      | Except.error e => Except.error e

/-- `Field::value` from `fields.rs`. -/
def Field.value (f : Field) : String := f.source

/-- `Clone for Field` from `fields.rs`: re-parse the original source and
`unwrap()` the result (`none` models the panic of `unwrap` on `Err`). -/
def Field.clone (f : Field) : Option Field :=
  match Field.parse f.source f.delims with
  | Except.ok g => some g
  | Except.error _ => none

/-- `Index<usize> for Field` from `fields.rs`.  `none` models a panic:
when `repeats` is empty, `self.repeats.len() - 1` underflows (panic with
debug assertions) or wraps so that the guard passes and the vector index
is out of bounds (panic either way).  Otherwise the guard
`idx > len - 1` returns the `""` sentinel out of range. -/
def Field.index1 (f : Field) (idx : Nat) : Option String :=
  if f.repeats.length = 0 then none
  else if f.repeats.length - 1 < idx then some ""
  else f.repeats[idx]?

/-- `Index<(usize, usize)> for Field` from `fields.rs`; the `||` guard is
short-circuiting, so `components[idx.0]` is only touched once `idx.0` is
within `repeats`.  `none` models the panics (component vector shorter
than `repeats`, or an empty inner component list). -/
def Field.index2 (f : Field) (idx : Nat × Nat) : Option String :=
  if f.repeats.length = 0 then none
  else if f.repeats.length - 1 < idx.1 then some ""
  else
    match f.components[idx.1]? with
    | none => none
    | some comp =>
      if comp.length = 0 then none
      else if comp.length - 1 < idx.2 then some ""
      else comp[idx.2]?

/-- `Index<(usize, usize, usize)> for Field` from `fields.rs`. -/
def Field.index3 (f : Field) (idx : Nat × Nat × Nat) : Option String :=
  if f.repeats.length = 0 then none
  else if f.repeats.length - 1 < idx.1 then some ""
  else
    match f.components[idx.1]? with
    | none => none
    | some comp =>
      if comp.length = 0 then none
      else if comp.length - 1 < idx.2.1 then some ""
      else
        match (f.subcomponents[idx.1]?).bind (fun r => r[idx.2.1]?) with
        | none => none
        | some sub =>
          if sub.length = 0 then none
          else if sub.length - 1 < idx.2.2 then some ""
          else sub[idx.2.2]?

/-- Keep only ASCII decimal digits, embedding the
`chars().filter(|c| c.is_digit(10)).collect::<String>()` idiom of
`Field::query`. -/
def digitsOf (s : String) : List Char :=
  s.data.filter (fun c => c.isDigit)

/-- Value of a list of decimal digit characters, most significant first. -/
def natOfDigits (l : List Char) : Nat :=
  l.foldl (fun a c => 10 * a + (c.toNat - 48)) 0

/-- Embedding of `str::parse::<usize>()` applied to a digits-only string:
it fails on the empty string and on values exceeding `usize::MAX`. -/
def parseUsize (l : List Char) : Option Nat :=
  if l = [] then none
  else if natOfDigits l < usizeSize then some (natOfDigits l) else none

/-- Wrapping `usize` subtraction of one, as `idx - 1` behaves in the
release build (`0 - 1` wraps to `usize::MAX`). -/
def usizeSub1 (n : Nat) : Nat :=
  (n + (usizeSize - 1)) % usizeSize

/-- `Field::query` from `fields.rs`: split the path on `.`, strip
non-digits from each token, `parse().unwrap()` each token as a `usize`
(`none` models the panic of `unwrap` when a token has no digits or its
digits exceed `usize::MAX`), subtract one, and resolve through the
numeric `Index` implementations; three or more tokens yield `""`. -/
def Field.query (f : Field) (sidx : String) : Option String :=
  let parts := splitOnChar '.' sidx
  if parts.length = 1 then
    match parseUsize (digitsOf (parts.getD 0 "")) with
    | none => none
    | some idx => f.index1 (usizeSub1 idx)
  else if parts.length = 2 then
    match parseUsize (digitsOf (parts.getD 0 "")) with
    | none => none
    | some idx0 =>
      match parseUsize (digitsOf (parts.getD 1 "")) with
      | none => none
      | some idx1 => f.index2 (usizeSub1 idx0, usizeSub1 idx1)
  else some ""

/-- Outcome of a fallible Rust call that can also panic: `panicked`
models a failed `assert!` or an `unwrap()`/index panic. -/
inductive Outcome (α : Type) where
  | ok (a : α) : Outcome α
  | err (e : Hl7ParseError) : Outcome α
  | panicked : Outcome α
deriving DecidableEq, Repr

/-- `MshSegment` from `segments/msh.rs` (the 19 positional fields). -/
structure MshSegment where
  source : String
  msh_1_field_separator : Char
  msh_2_encoding_characters : Separators
  msh_3_sending_application : Option Field
  msh_4_sending_facility : Option Field
  msh_5_receiving_application : Option Field
  msh_6_receiving_facility : Option Field
  msh_7_date_time_of_message : Field
  msh_8_security : Option Field
  msh_9_message_type : Field
  msh_10_message_control_id : Field
  msh_11_processing_id : Field
  msh_12_version_id : Field
  msh_13_sequence_number : Option Field
  msh_14_continuation_pointer : Option Field
  msh_15_accept_acknowledgment_type : Option Field
  msh_16_application_acknowledgment_type : Option Field
  msh_17_country_code : Option Field
  msh_18_character_set : Option Field
  msh_19_principal_language_of_message : Option Field
deriving DecidableEq, Repr

/-- The field-consuming body of `MshSegment::parse` (after the `assert!`
and the encoding-characters skip): consume the remaining pieces in order
through `parse_optional` / `parse_mandatory` — an exhausted iterator
yields `none`, exactly as `fields.next()` does. -/
def mshChain (rest : List String) (input : String) (delims : Separators) :
    Except Hl7ParseError MshSegment := do
        let f3 ← Field.parse_optional (rest.get? 0) delims
        let f4 ← Field.parse_optional (rest.get? 1) delims
        let f5 ← Field.parse_optional (rest.get? 2) delims
        let f6 ← Field.parse_optional (rest.get? 3) delims
        let f7 ← Field.parse_mandatory (rest.get? 4) delims
        let f8 ← Field.parse_optional (rest.get? 5) delims
        let f9 ← Field.parse_mandatory (rest.get? 6) delims
        let f10 ← Field.parse_mandatory (rest.get? 7) delims
        let f11 ← Field.parse_mandatory (rest.get? 8) delims
        let f12 ← Field.parse_mandatory (rest.get? 9) delims
        let f13 ← Field.parse_optional (rest.get? 10) delims
        let f14 ← Field.parse_optional (rest.get? 11) delims
        let f15 ← Field.parse_optional (rest.get? 12) delims
        let f16 ← Field.parse_optional (rest.get? 13) delims
        let f17 ← Field.parse_optional (rest.get? 14) delims
        let f18 ← Field.parse_optional (rest.get? 15) delims
        let f19 ← Field.parse_optional (rest.get? 16) delims
        Except.ok
          { source := input
            msh_1_field_separator := delims.field
            msh_2_encoding_characters := delims
            msh_3_sending_application := f3
            msh_4_sending_facility := f4
            msh_5_receiving_application := f5
            msh_6_receiving_facility := f6
            msh_7_date_time_of_message := f7
            msh_8_security := f8
            msh_9_message_type := f9
            msh_10_message_control_id := f10
            msh_11_processing_id := f11
            msh_12_version_id := f12
            msh_13_sequence_number := f13
            msh_14_continuation_pointer := f14
            msh_15_accept_acknowledgment_type := f15
            msh_16_application_acknowledgment_type := f16
            msh_17_country_code := f17
            msh_18_character_set := f18
            msh_19_principal_language_of_message := f19 }

/-- `MshSegment::parse` from `segments/msh.rs`: split on the field
delimiter, `assert!` that the first piece is `"MSH"` (`panicked` models
the assertion failure), skip the encoding-characters piece, then run the
field chain. -/
def MshSegment.parse (input : String) (delims : Separators) :
    Outcome MshSegment :=
  match splitOnChar delims.field input with
  | [] => Outcome.panicked
  | f0 :: rest =>
    if f0 = "MSH" then
      match mshChain (rest.drop 1) input delims with
      | Except.ok m => Outcome.ok m
      | Except.error e => Outcome.err e
    else Outcome.panicked

/-- Modelled from the spec (§3, §4.5): `GenericSegment` is declared in
`segments/generic.rs`, which is not among the provided sources; the
construction site in `segments/mod.rs` shows it wraps the ordered field
sequence. -/
structure GenericSegment where
  fields : List Field
deriving DecidableEq, Repr

/-- `Segment` from `segments/mod.rs`. -/
inductive Segment where
  | MSH (m : MshSegment) : Segment
  | Generic (g : GenericSegment) : Segment
deriving DecidableEq, Repr

/-- Embedding of `collect::<Result<Vec<_>, _>>()`: stop at the first
error, otherwise gather all values in order. -/
def collectResults {ε α : Type} : List (Except ε α) → Except ε (List α)
  | [] => Except.ok []
  | Except.error e :: _ => Except.error e
  | Except.ok a :: rest =>
    match collectResults rest with
    | Except.ok l => Except.ok (a :: l)
    | Except.error e => Except.error e

/-- `Segment::parse` from `segments/mod.rs`: split on the field
delimiter, parse every piece as a `Field` (propagating the first error),
then dispatch on field 0's value: `"MSH"` re-parses the whole line as an
`MshSegment`, anything else wraps the fields as a `GenericSegment`.
`panicked` models the `fields[0]` index panic on an empty vector
(unreachable, since splitting is never empty). -/
def Segment.parse (input : String) (delims : Separators) : Outcome Segment :=
  match collectResults
      ((splitOnChar delims.field input).map (fun l => Field.parse l delims)) with
  | Except.error e => Outcome.err e
  | Except.ok fields =>
    match fields with
    | [] => Outcome.panicked
    | f0 :: _ =>
      if f0.value = "MSH" then
        match MshSegment.parse input delims with
        | Outcome.ok m => Outcome.ok (Segment.MSH m)
        | Outcome.err e => Outcome.err e
        | Outcome.panicked => Outcome.panicked
      else Outcome.ok (Segment.Generic { fields := fields })

/-- `Message2` from `forwards_parser.rs`: owned-mode message retaining
only the input text. -/
structure Message2 where
  input : String
deriving DecidableEq, Repr

/-- The `filter(|line| line[..3] == *segment_type).next()` scan inside
`Message2::get_field`.  The predicate byte-slices `line[..3]`, which
panics on a line shorter than 3 (outer `none`); because `filter` is lazy,
only lines up to and including the first match are touched.  The inner
value is the first matching line, or `none` when the scan exhausts the
input without a match. -/
def findSeg (segment_type : String) : List String → Option (Option String)
  | [] => some none
  | l :: ls =>
    if l.length < 3 then none
    else if l.take 3 = segment_type then some (some l)
    else findSeg segment_type ls

/-- `Message2::get_field` from `forwards_parser.rs` (Strategy B): split
the owned text on the default segment terminator, take the first line
whose first three characters equal `segment_type` (panicking on any
shorter line scanned on the way), and return its `field_index`-th
field; `nth(..).unwrap()` panics (outer `none`) when the index is past
the last field, and a missing segment gives `""`. -/
def Message2.get_field (m : Message2) (segment_type : String)
    (field_index : Nat) : Option String :=
  let delims := Separators.default
  match findSeg segment_type (splitOnChar delims.segment m.input) with
  | none => none
  | some none => some ""
  | some (some line) => (splitOnChar delims.field line)[field_index]?

/-- Modelled from the spec (§4.7 Strategy A, §4.8): `Message` and
`MessageParser::parse_message` live in `message.rs` / `message_parser.rs`,
which are not among the provided sources.  Per the spec the borrowed-tree
message is an ordered sequence of segments sliced from the caller's
buffer; we retain the source text, from which the tree is a pure
function. -/
structure Message where
  input : String
deriving DecidableEq, Repr

/-- Modelled from the spec (§4.7, §4.8): handle-based field lookup over
the Strategy-A tree — find the first segment whose field 0 is
`segment_type` and return its `field_index`-th field text; the spec
requires the result to coincide with Strategy B's and to degrade to the
`""` sentinel (§4.3) rather than fail. -/
def Message.get_field (m : Message) (segment_type : String)
    (field_index : Nat) : String :=
  let delims := Separators.default
  match (splitOnChar delims.segment m.input).find?
      (fun line => (splitOnChar delims.field line).getD 0 "" = segment_type) with
  | none => ""
  | some line => (splitOnChar delims.field line).getD field_index ""

/-- Outcome of a boundary (FFI) call: `panicked` models a Rust panic
(failed `assert!` or `unwrap()`), `undef` models undefined behaviour
(dereferencing a pointer that was never null-checked). -/
inductive FfiOutcome (α : Type) where
  | ok (a : α) : FfiOutcome α
  | panicked : FfiOutcome α
  | undef : FfiOutcome α
deriving DecidableEq, Repr

/-- `free_string` from `native.rs`: a null pointer returns immediately
(no-op); otherwise the allocation is reclaimed and the call returns. -/
def free_string (s : Option String) : FfiOutcome Unit :=
  match s with
  | none => FfiOutcome.ok ()
  | some _ => FfiOutcome.ok ()

/-- `free_message` from `native.rs`: a null pointer returns immediately
(no-op); otherwise the boxed message is dropped and the call returns. -/
def free_message (msg_ptr : Option Message) : FfiOutcome Unit :=
  match msg_ptr with
  | none => FfiOutcome.ok ()
  | some _ => FfiOutcome.ok ()

/-- `build_message` from `native.rs`: `assert!(!s.is_null())` panics on
a null pointer; otherwise the text is parsed (Strategy A) and an owning
handle is returned. -/
def build_message (s : Option String) : FfiOutcome Message :=
  match s with
  | none => FfiOutcome.panicked
  | some text => FfiOutcome.ok { input := text }

/-- `get_field` from `native.rs`: the message handle is dereferenced
(`unsafe { &*ptr }`) with no null check — a null handle is undefined
behaviour — then the segment pointer is `assert!`-checked, the lookup is
forwarded to `Message::get_field`, and the result is re-allocated for
the caller (`CString::new(..).unwrap()` panics on an interior NUL). -/
def get_field (ptr : Option Message) (segment_ptr : Option String)
    (field_index : Nat) : FfiOutcome String :=
  match ptr with
  | none => FfiOutcome.undef
  | some m =>
    match segment_ptr with
    | none => FfiOutcome.panicked
    | some segment_str =>
      let result := m.get_field segment_str field_index
      if result.data.any (fun c => c = Char.ofNat 0) then FfiOutcome.panicked
      else FfiOutcome.ok result

/-- `get_field_from_message` from `native.rs`: both pointers are
`assert!`-checked, then the lookup runs Strategy B directly on the text
(whose own panics propagate), and the result is re-allocated. -/
def get_field_from_message (message : Option String)
    (segment_ptr : Option String) (field_index : Nat) : FfiOutcome String :=
  match message with
  | none => FfiOutcome.panicked
  | some message_string =>
    match segment_ptr with
    | none => FfiOutcome.panicked
    | some segment_str =>
      match Message2.get_field { input := message_string } segment_str
          field_index with
      | none => FfiOutcome.panicked
      | some result =>
        if result.data.any (fun c => c = Char.ofNat 0) then FfiOutcome.panicked
        else FfiOutcome.ok result

/-! ## Helper lemmas -/

theorem Field.parse_eq (input : String) (delims : Separators) :
    Field.parse input delims = Except.ok (mkField input delims) := rfl

theorem mkField_repeats (input : String) (delims : Separators) :
    (mkField input delims).repeats = splitOnChar delims.«repeat» input := rfl

theorem mkField_components (input : String) (delims : Separators) :
    (mkField input delims).components =
      (splitOnChar delims.«repeat» input).map
        (fun r => splitOnChar delims.component r) := rfl

theorem mkField_subcomponents (input : String) (delims : Separators) :
    (mkField input delims).subcomponents =
      ((splitOnChar delims.«repeat» input).map
        (fun r => splitOnChar delims.component r)).map
        (fun r => r.map (fun c => splitOnChar delims.subcomponent c)) := rfl

/-- The shape invariant of the materialized field tree: the repeat list
is non-empty, there is exactly one component list per repeat and one
subcomponent table row per component list, and every nested list is
non-empty. -/
def FieldInv (f : Field) : Prop :=
  f.repeats ≠ [] ∧
  f.components.length = f.repeats.length ∧
  f.subcomponents.length = f.components.length ∧
  (∀ i, i < f.components.length → f.components.getD i [] ≠ []) ∧
  (∀ i, i < f.subcomponents.length →
      (f.subcomponents.getD i []).length = (f.components.getD i []).length) ∧
  (∀ i j, i < f.subcomponents.length → j < (f.subcomponents.getD i []).length →
      (f.subcomponents.getD i []).getD j [] ≠ [])

theorem field_parse_inv (input : String) (delims : Separators) (f : Field)
    (h : Field.parse input delims = Except.ok f) : FieldInv f := by
  rw [Field.parse_eq] at h
  injection h with h
  subst h
  unfold FieldInv
  rw [mkField_repeats, mkField_components, mkField_subcomponents]
  refine ⟨splitOnChar_ne_nil _ _, List.length_map _ _, List.length_map _ _,
    ?_, ?_, ?_⟩
  · intro i hi
    rw [List.length_map] at hi
    simp only [List.getD_eq_getElem?_getD, List.getElem?_map,
      List.getElem?_eq_getElem hi, Option.map_some', Option.getD_some]
    exact splitOnChar_ne_nil _ _
  · intro i hi
    rw [List.length_map, List.length_map] at hi
    simp only [List.getD_eq_getElem?_getD, List.getElem?_map,
      List.getElem?_eq_getElem hi, Option.map_some', Option.getD_some,
      List.length_map]
  · intro i j hi hj
    rw [List.length_map, List.length_map] at hi
    simp only [List.getD_eq_getElem?_getD, List.getElem?_map,
      List.getElem?_eq_getElem hi, Option.map_some', Option.getD_some,
      List.length_map] at hj ⊢
    simp only [List.getD_eq_getElem?_getD, List.getElem?_map,
      List.getElem?_eq_getElem hj, Option.map_some', Option.getD_some]
    exact splitOnChar_ne_nil _ _

theorem index1_inv (f : Field) (hf : FieldInv f) (i : Nat) :
    (f.index1 i).isSome ∧ (f.repeats.length ≤ i → f.index1 i = some "") := by
  obtain ⟨h1, -, -, -, -, -⟩ := hf
  have hlen : f.repeats.length ≠ 0 := by
    simpa [List.length_eq_zero] using h1
  unfold Field.index1
  rw [if_neg hlen]
  by_cases hio : f.repeats.length - 1 < i
  · rw [if_pos hio]
    exact ⟨rfl, fun _ => rfl⟩
  · rw [if_neg hio]
    have hi : i < f.repeats.length := by omega
    rw [List.getElem?_eq_getElem hi]
    exact ⟨rfl, fun hle => absurd hi (by omega)⟩

theorem index2_inv (f : Field) (hf : FieldInv f) (i j : Nat) :
    (f.index2 (i, j)).isSome ∧
    (f.repeats.length ≤ i → f.index2 (i, j) = some "") ∧
    (i < f.repeats.length → (f.components.getD i []).length ≤ j →
      f.index2 (i, j) = some "") := by
  obtain ⟨h1, h2, -, h4, -, -⟩ := hf
  have hlen : f.repeats.length ≠ 0 := by
    simpa [List.length_eq_zero] using h1
  unfold Field.index2
  rw [if_neg hlen]
  by_cases hio : f.repeats.length - 1 < i
  · rw [if_pos hio]
    exact ⟨rfl, fun _ => rfl, fun hi _ => absurd hi (by omega)⟩
  · rw [if_neg hio]
    have hi : i < f.repeats.length := by omega
    have hic : i < f.components.length := by omega
    have hcne : f.components.getD i [] ≠ [] := h4 i hic
    rw [List.getD_eq_getElem?_getD, List.getElem?_eq_getElem hic] at hcne
    simp only [Option.getD_some] at hcne
    have hclen : f.components[i].length ≠ 0 := by
      simpa [List.length_eq_zero] using hcne
    rw [List.getElem?_eq_getElem hic]
    simp only
    rw [if_neg hclen]
    have hgetD : f.components.getD i [] = f.components[i] := by
      rw [List.getD_eq_getElem?_getD, List.getElem?_eq_getElem hic]
      simp
    by_cases hjo : f.components[i].length - 1 < j
    · rw [if_pos hjo]
      exact ⟨rfl, fun hle => absurd hi (by omega), fun _ _ => rfl⟩
    · rw [if_neg hjo]
      have hj : j < f.components[i].length := by omega
      rw [List.getElem?_eq_getElem hj]
      refine ⟨rfl, fun hle => absurd hi (by omega), fun _ hle => ?_⟩
      rw [hgetD] at hle
      exact absurd hj (by omega)

theorem index3_inv (f : Field) (hf : FieldInv f) (i j k : Nat) :
    (f.index3 (i, j, k)).isSome ∧
    (f.repeats.length ≤ i → f.index3 (i, j, k) = some "") ∧
    (i < f.repeats.length → (f.components.getD i []).length ≤ j →
      f.index3 (i, j, k) = some "") ∧
    (i < f.repeats.length → j < (f.components.getD i []).length →
      ((f.subcomponents.getD i []).getD j []).length ≤ k →
      f.index3 (i, j, k) = some "") := by
  obtain ⟨h1, h2, h3, h4, h5, h6⟩ := hf
  have hlen : f.repeats.length ≠ 0 := by
    simpa [List.length_eq_zero] using h1
  unfold Field.index3
  rw [if_neg hlen]
  by_cases hio : f.repeats.length - 1 < i
  · rw [if_pos hio]
    exact ⟨rfl, fun _ => rfl, fun hi _ => absurd hi (by omega),
      fun hi _ _ => absurd hi (by omega)⟩
  · rw [if_neg hio]
    have hi : i < f.repeats.length := by omega
    have hic : i < f.components.length := by omega
    have his : i < f.subcomponents.length := by omega
    have hgetD : f.components.getD i [] = f.components[i] := by
      rw [List.getD_eq_getElem?_getD, List.getElem?_eq_getElem hic]
      simp
    have hsgetD : f.subcomponents.getD i [] = f.subcomponents[i] := by
      rw [List.getD_eq_getElem?_getD, List.getElem?_eq_getElem his]
      simp
    have hcne : f.components.getD i [] ≠ [] := h4 i hic
    rw [hgetD] at hcne
    have hclen : f.components[i].length ≠ 0 := by
      simpa [List.length_eq_zero] using hcne
    have hslen : f.subcomponents[i].length = f.components[i].length := by
      have := h5 i his
      rwa [hgetD, hsgetD] at this
    rw [List.getElem?_eq_getElem hic]
    simp only
    rw [if_neg hclen]
    by_cases hjo : f.components[i].length - 1 < j
    · rw [if_pos hjo]
      exact ⟨rfl, fun _ => rfl, fun _ _ => rfl, fun _ _ _ => rfl⟩
    · rw [if_neg hjo]
      have hj : j < f.components[i].length := by omega
      have hjs : j < f.subcomponents[i].length := by omega
      rw [List.getElem?_eq_getElem his]
      simp only [Option.some_bind]
      rw [List.getElem?_eq_getElem hjs]
      simp only
      have hsub : (f.subcomponents.getD i []).getD j []
          = f.subcomponents[i][j] := by
        rw [hsgetD, List.getD_eq_getElem?_getD, List.getElem?_eq_getElem hjs]
        simp
      have hsne : f.subcomponents[i][j] ≠ [] := by
        have := h6 i j his (by rw [hsgetD]; exact hjs)
        rwa [hsub] at this
      have hsublen : f.subcomponents[i][j].length ≠ 0 := by
        simpa [List.length_eq_zero] using hsne
      rw [if_neg hsublen]
      by_cases hko : f.subcomponents[i][j].length - 1 < k
      · rw [if_pos hko]
        exact ⟨rfl, fun _ => rfl, fun _ _ => rfl, fun _ _ _ => rfl⟩
      · rw [if_neg hko]
        have hk : k < f.subcomponents[i][j].length := by omega
        rw [List.getElem?_eq_getElem hk]
        refine ⟨rfl, fun hle => absurd hi (by omega),
          fun _ hle => ?_, fun _ _ hle => ?_⟩
        · rw [hgetD] at hle
          exact absurd hj (by omega)
        · rw [hsub] at hle
          exact absurd hk (by omega)

theorem collectResults_ok {ε α β : Type} (l : List β) (g : β → α)
    (p : β → Except ε α) (hp : ∀ b, p b = Except.ok (g b)) :
    collectResults (l.map p) = Except.ok (l.map g) := by
  induction l with
  | nil => rfl
  | cons b bs ih =>
    simp only [List.map_cons, collectResults, hp b, ih]

theorem parse_optional_ok (x : Option String) (delims : Separators) :
    ∃ v, Field.parse_optional x delims = Except.ok v := by
  cases x with
  | none => exact ⟨none, rfl⟩
  | some s =>
    by_cases h : s.isEmpty = true
    · exact ⟨none, by simp [Field.parse_optional, h]⟩
    · exact ⟨some (mkField s delims),
        by simp [Field.parse_optional, h, Field.parse_eq]⟩

/-- A result that is not a `Generic` error. -/
def GoodErr {α : Type} (r : Except Hl7ParseError α) : Prop :=
  ∀ m, r ≠ Except.error (Hl7ParseError.Generic m)

theorem goodErr_bind {α β : Type} (x : Except Hl7ParseError α)
    (k : α → Except Hl7ParseError β) (hx : GoodErr x)
    (hk : ∀ a, GoodErr (k a)) : GoodErr (x >>= k) := by
  cases x with
  | error e =>
    intro m h
    rw [show (Except.error e >>= k : Except Hl7ParseError β)
      = Except.error e from rfl] at h
    injection h with h
    exact hx m (congrArg Except.error h)
  | ok a =>
    intro m
    rw [show (Except.ok a >>= k : Except Hl7ParseError β) = k a from rfl]
    exact hk a m

theorem goodErr_opt (x : Option String) (delims : Separators) :
    GoodErr (Field.parse_optional x delims) := by
  obtain ⟨v, hv⟩ := parse_optional_ok x delims
  rw [hv]
  intro m h
  exact Except.noConfusion h

theorem goodErr_mand (x : Option String) (delims : Separators) :
    GoodErr (Field.parse_mandatory x delims) := by
  cases x with
  | none =>
    intro m h
    injection h with h
    exact Hl7ParseError.noConfusion h
  | some s =>
    intro m h
    rw [show Field.parse_mandatory (some s) delims = Field.parse s delims
      from rfl, Field.parse_eq] at h
    exact Except.noConfusion h

theorem goodErr_pure {α : Type} (a : α) : GoodErr (Except.ok a) := by
  intro m h
  exact Except.noConfusion h

theorem mshChain_good (rest : List String) (input : String)
    (delims : Separators) : GoodErr (mshChain rest input delims) := by
  unfold mshChain
  refine goodErr_bind _ _ (goodErr_opt _ _) fun f3 => ?_
  refine goodErr_bind _ _ (goodErr_opt _ _) fun f4 => ?_
  refine goodErr_bind _ _ (goodErr_opt _ _) fun f5 => ?_
  refine goodErr_bind _ _ (goodErr_opt _ _) fun f6 => ?_
  refine goodErr_bind _ _ (goodErr_mand _ _) fun f7 => ?_
  refine goodErr_bind _ _ (goodErr_opt _ _) fun f8 => ?_
  refine goodErr_bind _ _ (goodErr_mand _ _) fun f9 => ?_
  refine goodErr_bind _ _ (goodErr_mand _ _) fun f10 => ?_
  refine goodErr_bind _ _ (goodErr_mand _ _) fun f11 => ?_
  refine goodErr_bind _ _ (goodErr_mand _ _) fun f12 => ?_
  refine goodErr_bind _ _ (goodErr_opt _ _) fun f13 => ?_
  refine goodErr_bind _ _ (goodErr_opt _ _) fun f14 => ?_
  refine goodErr_bind _ _ (goodErr_opt _ _) fun f15 => ?_
  refine goodErr_bind _ _ (goodErr_opt _ _) fun f16 => ?_
  refine goodErr_bind _ _ (goodErr_opt _ _) fun f17 => ?_
  refine goodErr_bind _ _ (goodErr_opt _ _) fun f18 => ?_
  refine goodErr_bind _ _ (goodErr_opt _ _) fun f19 => ?_
  exact goodErr_pure _

theorem mshChain_cases (rest : List String) (input : String)
    (delims : Separators) :
    (∃ m, mshChain rest input delims = Except.ok m) ∨
    mshChain rest input delims =
      Except.error Hl7ParseError.MissingRequiredValue := by
  have hg := mshChain_good rest input delims
  cases hr : mshChain rest input delims with
  | ok m => exact Or.inl ⟨m, rfl⟩
  | error e =>
    cases e with
    | MissingRequiredValue => exact Or.inr rfl
    | Generic m => exact absurd hr (hg m)

theorem usizeSub1_eq (n : Nat) (h1 : 1 ≤ n) (h2 : n < usizeSize) :
    usizeSub1 n = n - 1 := by
  have hu : usizeSize = 2 ^ 64 := rfl
  unfold usizeSub1
  rw [hu] at h2 ⊢
  omega

theorem parseUsize_lt (l : List Char) (n : Nat)
    (h : parseUsize l = some n) : n < usizeSize := by
  unfold parseUsize at h
  by_cases h0 : l = []
  · rw [if_pos h0] at h
    exact Option.noConfusion h
  · rw [if_neg h0] at h
    by_cases h1 : natOfDigits l < usizeSize
    · rw [if_pos h1] at h
      injection h with h
      omega
    · rw [if_neg h1] at h
      exact Option.noConfusion h

theorem findSeg_spec (styp : String) (lines : List String) (k : Nat)
    (hk : k < lines.length)
    (hlen : ∀ j, j ≤ k → 3 ≤ (lines.getD j "").length)
    (hne : ∀ j, j < k → (lines.getD j "").take 3 ≠ styp)
    (hm : (lines.getD k "").take 3 = styp) :
    findSeg styp lines = some (some (lines.getD k "")) := by
  induction lines generalizing k with
  | nil => simp at hk
  | cons l ls ih =>
    cases k with
    | zero =>
      have h3 : 3 ≤ l.length := by simpa using hlen 0 (Nat.le_refl 0)
      unfold findSeg
      rw [if_neg (by omega), if_pos (by simpa using hm)]
      simp
    | succ k =>
      have h3 : 3 ≤ l.length := by simpa using hlen 0 (by omega)
      have hne0 : l.take 3 ≠ styp := by simpa using hne 0 (by omega)
      unfold findSeg
      rw [if_neg (by omega), if_neg hne0]
      simp only [List.getD_cons_succ]
      exact ih k (by simpa using hk)
        (fun j hj => by simpa using hlen (j + 1) (by omega))
        (fun j hj => by simpa using hne (j + 1) (by omega))
        (by simpa using hm)

/-! ## Concrete values used by witnesses -/

/-- The field materialized from `"x&x^y&y~a&a^b&b"` with the default
delimiters (the value used by the repository's own tests). -/
def sampleField : Field :=
  { source := "x&x^y&y~a&a^b&b"
    delims := Separators.default
    repeats := ["x&x^y&y", "a&a^b&b"]
    components := [["x&x", "y&y"], ["a&a", "b&b"]]
    subcomponents := [[["x", "x"], ["y", "y"]], [["a", "a"], ["b", "b"]]] }

/-- The field materialized from the empty string. -/
def emptyField : Field :=
  { source := ""
    delims := Separators.default
    repeats := [""]
    components := [[""]]
    subcomponents := [[[""]]] }

/-! ## Claims -/

/-- C6: for every `Separators` value, `Field::parse_mandatory(None)`
fails with the `MissingRequiredValue` error, and
`Field::parse_mandatory(Some("xxx"))` succeeds with a `Field` whose
value is `"xxx"`. -/
theorem parse_mandatory_contract (delims : Separators) :
    Field.parse_mandatory none delims =
      Except.error Hl7ParseError.MissingRequiredValue ∧
    ∃ f, Field.parse_mandatory (some "xxx") delims = Except.ok f ∧
      f.value = "xxx" := by
  refine ⟨rfl, ⟨mkField "xxx" delims, ?_, rfl⟩⟩
  rw [show Field.parse_mandatory (some "xxx") delims
    = Field.parse "xxx" delims from rfl, Field.parse_eq]

/-- C7: for every `Separators` value, `Field::parse_optional(None)` and
`Field::parse_optional(Some(""))` both yield `Absent` (`Ok(None)`),
while `Field::parse_optional(Some("xxx"))` yields a present `Field`
whose value is `"xxx"`. -/
theorem parse_optional_contract (delims : Separators) :
    Field.parse_optional none delims = Except.ok none ∧
    Field.parse_optional (some "") delims = Except.ok none ∧
    ∃ f, Field.parse_optional (some "xxx") delims = Except.ok (some f) ∧
      f.value = "xxx" := by
  have he : "".isEmpty = true := by decide
  have hx : "xxx".isEmpty = false := by decide
  refine ⟨rfl, by simp [Field.parse_optional, he],
    ⟨mkField "xxx" delims, ?_, rfl⟩⟩
  simp [Field.parse_optional, hx, Field.parse_eq]

/-- C10: `Field::parse` returns `Ok` for every input string and every
`Separators` value — it has no error path — so
`Field::parse_mandatory(Some(x))` succeeds for every string `x`, the
per-field error propagation inside `Segment::parse` never fires, and
`Field`'s `Clone` implementation (which unwraps a re-parse of the
original source) never panics. -/
theorem field_parse_total (input : String) (delims : Separators)
    (x : String) (f : Field) :
    (∃ g, Field.parse input delims = Except.ok g) ∧
    (∃ g, Field.parse_mandatory (some x) delims = Except.ok g) ∧
    (∃ fs, collectResults ((splitOnChar delims.field input).map
        (fun l => Field.parse l delims)) = Except.ok fs) ∧
    (Field.clone f).isSome := by
  refine ⟨⟨mkField input delims, Field.parse_eq input delims⟩,
    ⟨mkField x delims, ?_⟩,
    ⟨(splitOnChar delims.field input).map (fun l => mkField l delims),
      collectResults_ok _ _ _ (fun b => Field.parse_eq b delims)⟩, ?_⟩
  · rw [show Field.parse_mandatory (some x) delims
      = Field.parse x delims from rfl, Field.parse_eq]
  · unfold Field.clone
    rw [Field.parse_eq]
    rfl

/-- C9: for every input string and every `Separators` value, the `Field`
returned by `Field::parse` satisfies the shape invariant (`repeats`
non-empty, one component list per repeat, one subcomponent row per
component, every nested list non-empty; the empty input yields one
repeat, one component, one subcomponent of empty content), and cloning
a `Field` preserves this invariant. -/
theorem field_parse_shape_invariant (input : String) (delims : Separators)
    (f : Field) (h : Field.parse input delims = Except.ok f) :
    FieldInv f ∧
    (∀ g, Field.clone f = some g → FieldInv g) ∧
    (input = "" → f.repeats = [""] ∧ f.components = [[""]] ∧
      f.subcomponents = [[[""]]]) := by
  have hrec := h
  rw [Field.parse_eq] at hrec
  injection hrec with hrec
  subst hrec
  refine ⟨field_parse_inv input delims _ h, ?_, ?_⟩
  · intro g hg
    unfold Field.clone at hg
    rw [Field.parse_eq] at hg
    simp only at hg
    injection hg with hg
    subst hg
    exact field_parse_inv _ _ _ (Field.parse_eq _ _)
  · intro he
    subst he
    exact ⟨rfl, rfl, rfl⟩

/-- Witness for C9 at the empty input. -/
theorem field_parse_shape_invariant_witness :
    Field.parse "" Separators.default = Except.ok emptyField ∧
    emptyField.repeats = [""] ∧ emptyField.components = [[""]] ∧
    emptyField.subcomponents = [[[""]]] := by
  have hm : mkField "" Separators.default = emptyField := by decide
  have h : Field.parse "" Separators.default = Except.ok emptyField := by
    rw [Field.parse_eq, hm]
  exact ⟨h, (field_parse_shape_invariant "" Separators.default emptyField
    h).2.2 rfl⟩

/-- C1: for every `Field` produced by `Field::parse` and every index
argument — a single `usize`, a pair, or a triple — the numeric-tuple
`Index` operations never panic (`isSome` in the embedding, where `none`
models a panic), and whenever any coordinate is out of range of the
corresponding rank they return the empty string `""`. -/
theorem field_numeric_index_total (input : String) (delims : Separators)
    (f : Field) (h : Field.parse input delims = Except.ok f)
    (i j k : Nat) :
    ((f.index1 i).isSome ∧ (f.index2 (i, j)).isSome ∧
      (f.index3 (i, j, k)).isSome) ∧
    (f.repeats.length ≤ i → f.index1 i = some "" ∧
      f.index2 (i, j) = some "" ∧ f.index3 (i, j, k) = some "") ∧
    (i < f.repeats.length → (f.components.getD i []).length ≤ j →
      f.index2 (i, j) = some "" ∧ f.index3 (i, j, k) = some "") ∧
    (i < f.repeats.length → j < (f.components.getD i []).length →
      ((f.subcomponents.getD i []).getD j []).length ≤ k →
      f.index3 (i, j, k) = some "") := by
  have hf := field_parse_inv input delims f h
  obtain ⟨h1a, h1b⟩ := index1_inv f hf i
  obtain ⟨h2a, h2b, h2c⟩ := index2_inv f hf i j
  obtain ⟨h3a, h3b, h3c, h3d⟩ := index3_inv f hf i j k
  exact ⟨⟨h1a, h2a, h3a⟩,
    fun hle => ⟨h1b hle, h2b hle, h3b hle⟩,
    fun hi hj => ⟨h2c hi hj, h3c hi hj⟩,
    h3d⟩

/-- Witness for C1 on the sample field (two repeats): index 2 is out of
range at every rank and resolves to the sentinel. -/
theorem field_numeric_index_total_witness :
    sampleField.index1 2 = some "" ∧ sampleField.index2 (2, 0) = some "" ∧
    sampleField.index3 (2, 0, 0) = some "" := by
  have hm : mkField "x&x^y&y~a&a^b&b" Separators.default = sampleField := by
    decide
  have h := field_numeric_index_total "x&x^y&y~a&a^b&b" Separators.default
    sampleField (by rw [Field.parse_eq, hm]) 2 0 0
  exact h.2.1 (by decide)

/-- C2 counterexample: on the field parsed from `"x"`, `query("C")` —
a path whose single token has a non-numeric remainder (no digits) —
panics on `parse().unwrap()` (modelled as `none`) instead of returning
the empty string `""` as the claim states. -/
theorem query_nondigit_token_cex :
    (Field.parse "x" Separators.default).toOption.map
      (fun f => f.query "C") = some none := by decide

/-- C2 (amended): `Field::query` splits the path on `.`, strips
non-digit characters from each token, parses the remaining digits as a
1-based position, subtracts one, and resolves via numeric-tuple
indexing; `query("R{n}")` equals the single-index result at `n-1` and
`query("R{n}.C{m}")` equals the pair result at `(n-1, m-1)`; a path
with more than two dot-separated tokens returns `""`, and an
out-of-range `n` or `m` returns `""` — but a token with a non-numeric
remainder (no digits, or digits exceeding `usize::MAX`) makes `query`
panic on `unwrap` rather than return `""`. -/
theorem query_resolves_numeric_paths (f : Field) (sidx t0 t1 : String)
    (n m : Nat) (input : String) (delims : Separators) :
    (splitOnChar '.' sidx = [t0] → parseUsize (digitsOf t0) = some n →
      1 ≤ n → f.query sidx = f.index1 (n - 1)) ∧
    (splitOnChar '.' sidx = [t0, t1] → parseUsize (digitsOf t0) = some n →
      parseUsize (digitsOf t1) = some m → 1 ≤ n → 1 ≤ m →
      f.query sidx = f.index2 (n - 1, m - 1)) ∧
    (3 ≤ (splitOnChar '.' sidx).length → f.query sidx = some "") ∧
    (Field.parse input delims = Except.ok f →
      splitOnChar '.' sidx = [t0] → parseUsize (digitsOf t0) = some n →
      f.repeats.length < n → f.query sidx = some "") ∧
    (Field.parse input delims = Except.ok f →
      splitOnChar '.' sidx = [t0, t1] → parseUsize (digitsOf t0) = some n →
      parseUsize (digitsOf t1) = some m → f.repeats.length < n →
      f.query sidx = some "") ∧
    (Field.parse input delims = Except.ok f →
      splitOnChar '.' sidx = [t0, t1] → parseUsize (digitsOf t0) = some n →
      parseUsize (digitsOf t1) = some m → 1 ≤ n →
      n - 1 < f.repeats.length →
      (f.components.getD (n - 1) []).length < m →
      f.query sidx = some "") := by
  have hA0 : splitOnChar '.' sidx = [t0] →
      parseUsize (digitsOf t0) = some n →
      f.query sidx = f.index1 (usizeSub1 n) := by
    intro h1 h2
    simp [Field.query, h1, h2]
  have hB0 : splitOnChar '.' sidx = [t0, t1] →
      parseUsize (digitsOf t0) = some n →
      parseUsize (digitsOf t1) = some m →
      f.query sidx = f.index2 (usizeSub1 n, usizeSub1 m) := by
    intro h1 h2 h3
    simp [Field.query, h1, h2, h3]
  have hA : splitOnChar '.' sidx = [t0] →
      parseUsize (digitsOf t0) = some n → 1 ≤ n →
      f.query sidx = f.index1 (n - 1) := by
    intro h1 h2 h3
    rw [hA0 h1 h2, usizeSub1_eq n h3 (parseUsize_lt _ _ h2)]
  have hB : splitOnChar '.' sidx = [t0, t1] →
      parseUsize (digitsOf t0) = some n →
      parseUsize (digitsOf t1) = some m → 1 ≤ n → 1 ≤ m →
      f.query sidx = f.index2 (n - 1, m - 1) := by
    intro h1 h2 h3 h4 h5
    rw [hB0 h1 h2 h3, usizeSub1_eq n h4 (parseUsize_lt _ _ h2),
      usizeSub1_eq m h5 (parseUsize_lt _ _ h3)]
  refine ⟨hA, hB, ?_, ?_, ?_, ?_⟩
  · intro h3
    simp only [Field.query]
    rw [if_neg (by omega), if_neg (by omega)]
  · intro hp h1 h2 hlt
    have h3 : 1 ≤ n := by omega
    rw [hA h1 h2 h3]
    exact (index1_inv f (field_parse_inv _ _ _ hp) (n - 1)).2 (by omega)
  · intro hp h1 h2 hm hlt
    have h3 : 1 ≤ n := by omega
    rw [hB0 h1 h2 hm, usizeSub1_eq n h3 (parseUsize_lt _ _ h2)]
    exact (index2_inv f (field_parse_inv _ _ _ hp) (n - 1)
      (usizeSub1 m)).2.1 (by omega)
  · intro hp h1 h2 hm h3 hn hcomp
    have h5 : 1 ≤ m := by omega
    rw [hB0 h1 h2 hm, usizeSub1_eq n h3 (parseUsize_lt _ _ h2),
      usizeSub1_eq m h5 (parseUsize_lt _ _ hm)]
    exact (index2_inv f (field_parse_inv _ _ _ hp) (n - 1)
      (m - 1)).2.2 hn (by omega)

/-- Witness for C2 (amended) on the sample field: `"R2"` resolves to
single-index 1 and `"R2.C2"` to pair (1, 1). -/
theorem query_resolves_numeric_paths_witness :
    sampleField.query "R2" = sampleField.index1 1 ∧
    sampleField.query "R2.C2" = sampleField.index2 (1, 1) := by
  constructor
  · exact (query_resolves_numeric_paths sampleField "R2" "R2" "" 2 0 ""
      Separators.default).1 (by decide) (by decide) (by decide)
  · exact (query_resolves_numeric_paths sampleField "R2.C2" "R2" "C2" 2 2
      "" Separators.default).2.1 (by decide) (by decide) (by decide)
      (by decide) (by decide)

theorem segment_parse_cases (input : String) (delims : Separators) :
    (∃ s, Segment.parse input delims = Outcome.ok s) ∨
    Segment.parse input delims =
      Outcome.err Hl7ParseError.MissingRequiredValue := by
  unfold Segment.parse
  rw [collectResults_ok _ _ _ (fun b => Field.parse_eq b delims)]
  cases hsp : splitOnChar delims.field input with
  | nil => exact absurd hsp (splitOnChar_ne_nil _ _)
  | cons p ps =>
    simp only [List.map_cons]
    by_cases hp : p = "MSH"
    · subst hp
      rw [if_pos (show (mkField "MSH" delims).value = "MSH" from rfl)]
      unfold MshSegment.parse
      rw [hsp]
      rcases mshChain_cases ps.tail input delims with ⟨mm, hmm⟩ | hmm
      · exact Or.inl ⟨Segment.MSH mm, by simp [hmm]⟩
      · exact Or.inr (by simp [hmm])
    · rw [if_neg (show ¬((mkField p delims).value = "MSH") from hp)]
      exact Or.inl ⟨_, rfl⟩

/-- C5 (amended): segment construction surfaces only the
`MissingRequiredValue` error kind — `Segment::parse` never panics and
never returns a `Generic` error — while a header-segment line that does
not start with the reserved code makes `MshSegment::parse` fail its
`assert!` (a panic), not return a `Generic` error as the claim
states. -/
theorem segment_parse_error_kinds (input : String) (delims : Separators) :
    (Segment.parse input delims ≠ Outcome.panicked) ∧
    (∀ m, Segment.parse input delims ≠
      Outcome.err (Hl7ParseError.Generic m)) ∧
    (∀ p ps, splitOnChar delims.field input = p :: ps → p ≠ "MSH" →
      MshSegment.parse input delims = Outcome.panicked) := by
  refine ⟨?_, ?_, ?_⟩
  · rcases segment_parse_cases input delims with ⟨s, hs⟩ | hs <;>
      rw [hs] <;> simp
  · intro m
    rcases segment_parse_cases input delims with ⟨s, hs⟩ | hs <;>
      rw [hs] <;> simp
  · intro p ps hsp hp
    unfold MshSegment.parse
    rw [hsp]
    simp only []
    rw [if_neg hp]

/-- C5 counterexample: `MshSegment::parse` on the line `"XXX"` — which
does not start with the reserved code — panics on its assertion instead
of surfacing a `Generic` error. -/
theorem msh_non_msh_line_asserts_cex :
    MshSegment.parse "XXX" Separators.default = Outcome.panicked := by
  decide

/-- Witness for C5 (amended) at a concrete non-MSH header line. -/
theorem segment_parse_error_kinds_witness :
    MshSegment.parse "XXX|junk" Separators.default = Outcome.panicked :=
  (segment_parse_error_kinds "XXX|junk" Separators.default).2.2
    "XXX" ["junk"] (by decide) (by decide)

/-- The generic segment produced from `"SEG|field 1|field 2|field 3"`. -/
def segFields : GenericSegment :=
  { fields := ["SEG", "field 1", "field 2", "field 3"].map
      (fun l => mkField l Separators.default) }

/-- C8: for every input line, `Segment::parse` splits it on the field
delimiter into an ordered field sequence and dispatches on field 0's
value — equal to the reserved header code routes to the typed
header-segment parser, anything else yields a generic segment wrapping
the field sequence — and for the generic line
`"SEG|field 1|field 2|field 3"` the resulting field sequence has length
4 including the leading type field. -/
theorem segment_parse_dispatch (input : String) (delims : Separators) :
    (∀ p ps, splitOnChar delims.field input = p :: ps → p ≠ "MSH" →
      Segment.parse input delims = Outcome.ok (Segment.Generic
        { fields := (p :: ps).map (fun l => mkField l delims) })) ∧
    (∀ p ps, splitOnChar delims.field input = p :: ps → p = "MSH" →
      ∀ m, MshSegment.parse input delims = Outcome.ok m →
        Segment.parse input delims = Outcome.ok (Segment.MSH m)) ∧
    (Segment.parse "SEG|field 1|field 2|field 3" Separators.default =
      Outcome.ok (Segment.Generic segFields) ∧
      segFields.fields.length = 4) := by
  refine ⟨?_, ?_, by decide, by decide⟩
  · intro p ps hsp hp
    unfold Segment.parse
    rw [collectResults_ok _ _ _ (fun b => Field.parse_eq b delims), hsp]
    simp only [List.map_cons]
    rw [if_neg (show ¬((mkField p delims).value = "MSH") from hp)]
  · intro p ps hsp hp m hm
    subst hp
    unfold Segment.parse
    rw [collectResults_ok _ _ _ (fun b => Field.parse_eq b delims), hsp]
    simp only [List.map_cons]
    rw [if_pos (show (mkField "MSH" delims).value = "MSH" from rfl), hm]

/-- Witness for C8 at the generic line from the repository's tests. -/
theorem segment_parse_dispatch_witness :
    Segment.parse "SEG|field 1|field 2|field 3" Separators.default =
      Outcome.ok (Segment.Generic segFields) :=
  (segment_parse_dispatch "SEG|field 1|field 2|field 3"
    Separators.default).1 "SEG" ["field 1", "field 2", "field 3"]
    (by decide) (by decide)

/-- C4 counterexample: on the owned text `"AB\rPID|x"` the claim's
description would locate the line `"PID|x"` and return field 1 (`"x"`),
but `Message2::get_field` panics (modelled as `none`): the lazy filter
byte-slices `line[..3]` of the two-character first line `"AB"`. -/
theorem get_field_short_line_cex :
    Message2.get_field { input := "AB\rPID|x" } "PID" 1 = none := by
  decide

/-- C4 (amended): provided every line scanned up to and including the
first match is at least 3 characters long and `field_index` is within
the matched line's field count, Strategy B's `get_field` locates the
first line whose first 3 characters equal `segment_type`, splits it on
the field delimiter, and returns the field at `field_index` counting
the literal segment code as field 0 (shorter lines on the way, or an
out-of-range `field_index`, panic instead); on the given PID line,
field index 3 resolves to `"555-44-4444"` under both Strategy A and
Strategy B. -/
theorem message2_get_field_locates (input styp : String) (idx k : Nat)
    (lines : List String)
    (hl : lines = splitOnChar Separators.default.segment input)
    (hk : k < lines.length)
    (hlen : ∀ j, j ≤ k → 3 ≤ (lines.getD j "").length)
    (hne : ∀ j, j < k → (lines.getD j "").take 3 ≠ styp)
    (hm : (lines.getD k "").take 3 = styp)
    (hidx : idx <
      (splitOnChar Separators.default.field (lines.getD k "")).length) :
    Message2.get_field { input := input } styp idx =
      some ((splitOnChar Separators.default.field
        (lines.getD k "")).getD idx "") ∧
    Message2.get_field
      { input := "PID|||555-44-4444||EVERYWOMAN^EVE^E^^^^L|...|" }
      "PID" 3 = some "555-44-4444" ∧
    Message.get_field
      { input := "PID|||555-44-4444||EVERYWOMAN^EVE^E^^^^L|...|" }
      "PID" 3 = "555-44-4444" := by
  refine ⟨?_, by decide, by decide⟩
  subst hl
  simp only [Message2.get_field]
  rw [findSeg_spec styp _ k hk hlen hne hm]
  simp only []
  rw [List.getD_eq_getElem?_getD (splitOnChar Separators.default.field
    ((splitOnChar Separators.default.segment input).getD k "")) idx "",
    List.getElem?_eq_getElem hidx]
  rfl

/-- Witness for C4 (amended) at the PID example with `k = 0`,
`field_index = 3`. -/
theorem message2_get_field_locates_witness :
    Message2.get_field
      { input := "PID|||555-44-4444||EVERYWOMAN^EVE^E^^^^L|...|" }
      "PID" 3 = some "555-44-4444" :=
  (message2_get_field_locates
    "PID|||555-44-4444||EVERYWOMAN^EVE^E^^^^L|...|" "PID" 3 0 _ rfl
    (by decide)
    (fun j hj => by
      have hj0 : j = 0 := Nat.le_zero.mp hj
      subst hj0
      decide)
    (fun j hj => absurd hj (Nat.not_lt_zero j))
    (by decide) (by decide)).2.1

/-- C3 counterexample: the handle-based boundary lookup `get_field`
dereferences its message-handle pointer with `unsafe { &*ptr }` before
any null check, so a null handle is undefined behaviour — not every
boundary entry point validates its pointers. -/
theorem get_field_null_handle_cex :
    get_field none (some "PID") 0 = FfiOutcome.undef := rfl

/-- C3 (amended): every boundary entry point except the handle-based
`get_field` validates its foreign pointers before use (`build_message`
and `get_field_from_message` assert non-null, so a null argument panics
rather than dereferencing); `get_field` asserts its segment pointer but
dereferences the message handle unchecked (null handle is undefined
behaviour); `free_message(null)` and `free_string(null)` are no-ops. -/
theorem boundary_null_checks :
    free_string none = FfiOutcome.ok () ∧
    free_message none = FfiOutcome.ok () ∧
    build_message none = FfiOutcome.panicked ∧
    (∀ seg idx, get_field none seg idx = FfiOutcome.undef) ∧
    (∀ m idx, get_field (some m) none idx = FfiOutcome.panicked) ∧
    (∀ seg idx, get_field_from_message none seg idx =
      FfiOutcome.panicked) ∧
    (∀ t idx, get_field_from_message (some t) none idx =
      FfiOutcome.panicked) :=
  ⟨rfl, rfl, rfl, fun _ _ => rfl, fun _ _ => rfl, fun _ _ => rfl,
    fun _ _ => rfl⟩

end RustHl7
